import Mathlib

/-!
Verification development for the grad-project book-analysis system:
a shallow embedding of its processing-status model, execution registry and
cancellation coordinator, workflow pipeline (validator / preprocessor /
analyst loop), character resolution and merge, unexpected-error handling,
and the character-relationship store, together with theorems settling the
specification's claims about them.

The repository ships the frontend and the documentation of the backend;
where the backend implementation itself is absent, definitions are modelled
from the specification and the documentation's code fragments, and are
marked `Modelled from the spec:` in their doc comments.
-/

namespace GradProject

/-! ## Processing statuses

From `src/grad-project-next/src/types/index.ts` (the `ProcessingStatus`
union) and the book-API documentation's "Processing Status Values" list:
the reportable processing statuses are exactly these four strings. -/

/-- The `status` union of `ProcessingStatus` in `types/index.ts`
(`'pending' | 'processing' | 'completed' | 'failed'`), identical to the
"Processing Status Values" list in the book-API documentation. -/
def processingStatusValues : List String :=
  ["pending", "processing", "completed", "failed"]

/-- The statuses in `processingStatusValues` that are terminal
(per the book-API documentation: `completed` and `failed` end processing;
`pending` and `processing` do not). -/
def terminalStatusValues : List String := ["completed", "failed"]

/-! ## Unexpected-error handling

Modelled from the spec (§7) and the usage pattern in
`src/docs/UNEXPECTED_ERROR_HANDLING.md`: a workflow node wraps its work in
a try/except; on an unexpected exception it logs the full detail
server-side, emits an `unexpected_error` event with a generic user-facing
message to the progress channel, and returns a fallback value so the
workflow continues. -/

/-- An event sent to the client progress channel, as in the
"Client Receives" JSON of `UNEXPECTED_ERROR_HANDLING.md`. -/
structure ErrorEvent where
  event_type : String
  status : String
  error_code : String
  message : String
  details : String
deriving DecidableEq, Repr

/-- `create_unexpected_error_event` from `utils.websocket_events`, as
documented in `UNEXPECTED_ERROR_HANDLING.md`: wraps a user-facing detail
message in a generic `unexpected_error` event. -/
def create_unexpected_error_event (error_message : String) : ErrorEvent :=
  { event_type := "unexpected_error"
    status := "error"
    error_code := "UNEXPECTED_ERROR"
    message := "حدث خطأ غير متوقع"
    details := error_message }

/-- The observable state a workflow node threads through the
unexpected-error pattern: its result field, the degradation flag, the
validation gate and termination flag of the run, the server-side log and
the client event stream. -/
structure NodeState where
  result : String
  operation_failed : Bool
  validation_passed : Bool
  no_more_chunks : Bool
  server_log : List String
  client_events : List ErrorEvent
deriving DecidableEq, Repr

/-- Modelled from the spec: the `your_workflow_node` try/except pattern of
`UNEXPECTED_ERROR_HANDLING.md` (the concrete workflow nodes are not in the
repository snapshot). The node's own work is the `op` argument: `Except.ok`
is the normal path, `Except.error e` an unexpected exception with
diagnostic detail `e`. On error the node logs the full detail, appends an
`unexpected_error` event with the generic Arabic user-facing message, and
returns the fallback value, leaving the run's gates untouched. -/
def your_workflow_node (op : Except String String) (s : NodeState) : NodeState :=
  match op with
  | Except.ok v => { s with result := v, operation_failed := false }
  | Except.error e =>
      { s with
        result := "fallback_value"
        operation_failed := true
        server_log :=
          s.server_log ++ ["Unexpected error in your_workflow_node: " ++ e]
        client_events :=
          s.client_events ++
            [create_unexpected_error_event "فشل في معالجة هذه المرحلة"] }

/-! ## Character-relationship store

Modelled from the spec (§6, storage contract) and the schema fragments in
`src/docs/SYSTEM_ARCHITECTURE.md`: the `character_relationship` table with
`UNIQUE(character_id_1, character_id_2, book_id)`; the adapter's
`create_character_relationship` insert is governed by that constraint. -/

/-- One row of the `character_relationship` table of
`SYSTEM_ARCHITECTURE.md` (identifier columns and payload columns). -/
structure CharacterRelationshipRow where
  character_id_1 : String
  character_id_2 : String
  relationship_type : String
  description : String
  book_id : String
deriving DecidableEq, Repr

/-- The uniqueness key of a `character_relationship` row, per the schema's
`UNIQUE(character_id_1, character_id_2, book_id)`. -/
def relKey (r : CharacterRelationshipRow) : String × String × String :=
  (r.character_id_1, r.character_id_2, r.book_id)

/-- Whether the table already holds a row with the given uniqueness key. -/
def hasRelKey (db : List CharacterRelationshipRow)
    (k : String × String × String) : Bool :=
  db.any (fun q => relKey q == k)

/-- Modelled from the spec: `create_character_relationship` (the adapter
implementation is not in the repository snapshot). Inserting a row whose
`(character_id_1, character_id_2, book_id)` key already exists is rejected
by the schema's uniqueness constraint and leaves the table unchanged;
otherwise the row is appended. Returns the new table and whether the
insert was accepted. -/
def create_character_relationship (db : List CharacterRelationshipRow)
    (r : CharacterRelationshipRow) : List CharacterRelationshipRow × Bool :=
  if hasRelKey db (relKey r) then (db, false) else (db ++ [r], true)

/-- Number of stored rows having a given uniqueness key. -/
def countRelKey (db : List CharacterRelationshipRow)
    (k : String × String × String) : Nat :=
  (db.filter (fun q => relKey q == k)).length

/-! ## Execution registry and cancellation

Modelled from the spec (§3 ExecutionRecord, §4.3) and
`src/docs/ENHANCED_CANCELLATION_README.md` (the global graph registry of
`graduation_backend/celery.py`, `cancel_graph_execution`,
`cancel_all_graphs`, and the graceful-shutdown protocol; the Python files
themselves are not in the repository snapshot). -/

/-- One registry entry: start timestamp, the cancellation signal
(`threading.Event`), and the liveness flag of the run's thread. -/
structure ExecutionRecord where
  startTime : Nat
  cancelRequested : Bool
  live : Bool
deriving DecidableEq, Repr

/-- The global graph registry: the mapping from run (task) id to its
execution record, owned exclusively by the registry. -/
structure GraphRegistry where
  activeGraphs : List (String × ExecutionRecord)
deriving DecidableEq, Repr

/-- Look a run id up in the registry. -/
def lookupRun (reg : GraphRegistry) (runId : String) : Option ExecutionRecord :=
  (reg.activeGraphs.find? (fun p => p.1 == runId)).map (fun p => p.2)

/-- Modelled from the spec: `cancel_graph_execution(runId)` — sets the
run's cancellation signal if the run is registered, touching no other
entry; returns whether the run was found and live. Cancelling an
unregistered id leaves the registry unchanged and reports not-found. -/
def cancel_graph_execution (reg : GraphRegistry) (runId : String) :
    GraphRegistry × Bool :=
  match lookupRun reg runId with
  | none => (reg, false)
  | some r =>
      (⟨reg.activeGraphs.map (fun p =>
          if p.1 == runId then (p.1, { p.2 with cancelRequested := true })
          else p)⟩,
       r.live)

/-! ### Graceful shutdown protocol -/

/-- The configured grace period (seconds) of the shutdown protocol:
`timeout = 30` in `ENHANCED_CANCELLATION_README.md`. -/
def gracePeriodSeconds : Nat := 30

/-- A run as seen by the shutdown coordinator: its id, its cancellation
signal, and how many poll intervals the run's thread still needs before it
observes cancellation and stops (its cooperative responsiveness). -/
structure ShutdownRun where
  runId : String
  cancelRequested : Bool
  ticksToFinish : Nat
deriving DecidableEq, Repr

/-- Modelled from the spec: `cancel_all_graphs()` — sets the cancellation
signal of every currently-registered run. -/
def cancel_all_graphs (runs : List ShutdownRun) : List ShutdownRun :=
  runs.map (fun r => { r with cancelRequested := true })

/-- Liveness of a run at poll time `t`: a signalled run stops once its
remaining cooperative ticks have elapsed; an unsignalled run keeps
running. -/
def liveAt (r : ShutdownRun) (t : Nat) : Bool :=
  if r.cancelRequested then decide (t < r.ticksToFinish) else true

/-- The coordinator's poll loop: waits (one tick per poll) until either no
run is live or the remaining grace budget is exhausted; returns the elapsed
time at which it stopped waiting. -/
def waitLoop (runs : List ShutdownRun) : Nat → Nat → Nat
  | 0, t => t
  | g + 1, t =>
      if runs.all (fun r => !liveAt r t) then t else waitLoop runs (g) (t + 1)

/-- Modelled from the spec: the process-wide graceful-shutdown protocol of
`ENHANCED_CANCELLATION_README.md` — on a termination request the
coordinator calls `cancel_all_graphs`, polls run liveness for at most
`grace` ticks, then force-abandons whatever is still live; every
registered run is marked `cancelled` regardless. Returns the final
(runId, status) report and the total time waited. -/
def gracefulShutdown (runs : List ShutdownRun) (grace : Nat) :
    List (String × String) × Nat :=
  let rs := cancel_all_graphs runs
  let t := waitLoop rs grace 0
  (rs.map (fun r => (r.runId, "cancelled")), t)

/-! ## Character records, name normalization and fuzzy resolution

Modelled from the spec (§3 character record, §4.2) and the documentation of
`DjangoCharacterAdapter` / `find_characters_by_name_enhanced` in
`src/docs/SYSTEM_ARCHITECTURE.md` and `src/docs/EMAIL_QUEUE_SETUP.md`
(the adapter's fuzzy-matching implementation is not in the repository
snapshot). -/

/-- One outgoing relationship edge of a character record: target
identifier, relationship kind from the closed set of the
`character_relationship` schema, strength in [0,1], description. -/
structure RelEdge where
  target_id : Nat
  relationship_type : String
  strength : ℚ
  description : String
deriving DecidableEq, Repr

/-- A character record: stable identifier (scoped to the book), canonical
name, alias set, narrative events and outgoing relationship edges. -/
structure Character where
  character_id : Nat
  name : String
  aliases : List String
  events : List String
  relationships : List RelEdge
deriving DecidableEq, Repr

/-- Prior-mention weight of a profile: its event count plus its
relationship count, used as the tie-break between equally similar
candidates. -/
def mentionCount (c : Character) : Nat :=
  c.events.length + c.relationships.length

/-- Modelled from the spec: per-character Arabic orthography folding used
before comparison — hamza-carrier variants of alif fold to bare alif,
ta marbuta to ha, alif maqsura to ya (so `احمد` matches `أحمد`). -/
def normalizeChar (c : Char) : Char :=
  if c = 'أ' ∨ c = 'إ' ∨ c = 'آ' then 'ا'
  else if c = 'ة' then 'ه'
  else if c = 'ى' then 'ي'
  else c

/-- Arabic diacritic (tashkeel) code points, stripped before comparison. -/
def isTashkeel (c : Char) : Bool :=
  (0x64B ≤ c.toNat && c.toNat ≤ 0x652) || c.toNat = 0x670

/-- Modelled from the spec: name normalization — strip diacritics and fold
variant letters, character by character. -/
def normalizeName (s : String) : List Char :=
  (s.data.filter (fun c => !isTashkeel c)).map normalizeChar

/-- Levenshtein edit distance with an explicit fuel bound (structural on
the fuel, so that the kernel can evaluate it); `fuel ≥ xs.length + ys.length`
makes the fallback branch unreachable. -/
def levFuel : Nat → List Char → List Char → Nat
  | _, [], ys => ys.length
  | _, xs, [] => xs.length
  | 0, xs, ys => xs.length + ys.length
  | f + 1, x :: xs, y :: ys =>
      if x = y then levFuel f xs ys
      else
        1 + min (levFuel f xs (y :: ys))
              (min (levFuel f (x :: xs) ys) (levFuel f xs ys))

/-- Levenshtein edit distance between two character sequences. -/
def levenshtein (xs ys : List Char) : Nat :=
  levFuel (xs.length + ys.length) xs ys

/-- Modelled from the spec: the fuzzy string-similarity score — normalized
edit-distance similarity `(maxlen - dist) / maxlen` in [0,1], with `1` for
two empty strings. -/
def simScore (xs ys : List Char) : ℚ :=
  let m := max xs.length ys.length
  if m = 0 then 1 else mkRat ((m - levenshtein xs ys : Nat) : Int) m

/-- The configured similarity threshold: `similarity_threshold=0.8` in the
documented `find_characters_by_name_enhanced` call. -/
def simThreshold : ℚ := mkRat 8 10

/-- Similarity of a stored profile's normalized name to the normalized
query name. -/
def score (query : String) (c : Character) : ℚ :=
  simScore (normalizeName c.name) (normalizeName query)

/-- Whether a stored profile is a match candidate for a query name: exact
normalized equality is always accepted, otherwise the fuzzy similarity
must reach the threshold. -/
def nameMatches (query : String) (c : Character) : Bool :=
  (normalizeName c.name == normalizeName query) ||
    decide (simThreshold ≤ score query c)

/-- Lexicographic candidate comparison: strictly higher similarity wins;
on an exact similarity tie, strictly more prior mentions win. -/
def betterCandidate (query : String) (cnew cacc : Character) : Bool :=
  decide (score query cacc < score query cnew) ||
    (decide (score query cnew = score query cacc) &&
      decide (mentionCount cacc < mentionCount cnew))

/-- Modelled from the spec: `find_characters_by_name_enhanced` resolution —
filter the active profiles to the match candidates, then select the
highest-similarity candidate, breaking exact similarity ties in favour of
the profile with more prior mentions (keeping the earlier profile when
both tie); `none` when no profile is a candidate. -/
def resolveName (ps : List Character) (query : String) : Option Character :=
  match ps.filter (nameMatches query) with
  | [] => none
  | c :: cs =>
      some (cs.foldl (fun acc d => if betterCandidate query d acc then d else acc) c)

/-- Candidate preference order used by resolution: `lexGE q a b` holds
when candidate `a` is at least as good as candidate `b` for query `q` —
`a`'s similarity is at least `b`'s, and on an exact similarity tie `a` has
at least as many prior mentions. -/
def lexGE (q : String) (a b : Character) : Prop :=
  score q b ≤ score q a ∧
    (score q b = score q a → mentionCount b ≤ mentionCount a)

/-- A fresh identifier for a new character record: one past the largest
identifier in use. -/
def freshId (ps : List Character) : Nat :=
  (ps.map (fun c => c.character_id)).foldr max 0 + 1

/-- A newly created character record: fresh identifier, the observed name
as canonical name, and empty aliases, events and relationships. -/
def newCharacter (id : Nat) (name : String) : Character :=
  { character_id := id, name := name, aliases := [], events := [],
    relationships := [] }

/-- Modelled from the spec: `profile_retriever_creator`'s
resolve-or-create step — resolve the candidate name against the active
profiles; on a match return the matched record's identifier with the
profile set unchanged, otherwise append a new record under a fresh
identifier. -/
def resolveOrCreate (ps : List Character) (name : String) :
    List Character × Nat :=
  match resolveName ps name with
  | some c => (ps, c.character_id)
  | none =>
      let id := freshId ps
      (ps ++ [newCharacter id name], id)

/-- The identifiers present in a profile set. -/
def idsOf (ps : List Character) : List Nat :=
  ps.map (fun c => c.character_id)

/-- Relationship-edge validity: every edge of every profile targets an
identifier that exists in the profile set. -/
def edgesValid (ps : List Character) : Prop :=
  ∀ c ∈ ps, ∀ r ∈ c.relationships, r.target_id ∈ idsOf ps

/-- Modelled from the spec: `profile_refresher`'s merge step — merge newly
observed aliases, events and relationship edges into the record with the
given identifier, never renaming or deleting any identifier; a new edge is
kept only when its target identifier exists in the profile set. -/
def mergeProfile (ps : List Character) (id : Nat) (newAliases : List String)
    (newEvents : List String) (newRels : List RelEdge) : List Character :=
  ps.map (fun c =>
    if c.character_id = id then
      { c with
        aliases := c.aliases ++ newAliases
        events := c.events ++ newEvents
        relationships :=
          c.relationships ++
            newRels.filter (fun r =>
              ps.any (fun d => d.character_id == r.target_id)) }
    else c)

/-! ## Workflow pipeline: state, validator, preprocessor, analyst loop

The state structure follows the `State` TypedDict documented in
`src/docs/SYSTEM_ARCHITECTURE.md`; the stage functions, routers and loop
protocol are modelled from the spec (§4.1) and the subgraph wiring in that
document (the `ai_workflow` Python sources are not in the repository
snapshot). -/

/-- The global pipeline state, following the `State` TypedDict of
`SYSTEM_ARCHITECTURE.md` (`last_profiles`, `last_appearing_names`,
`book_id`, `no_more_chunks`, `chunk_num`, `num_of_chunks`, `last_summary`,
`clean_chunks`, `validation_passed`; the progress callback is modelled as
the accumulated event list). -/
structure State where
  last_profiles : List Character
  last_appearing_names : List String
  book_id : Option String
  no_more_chunks : Bool
  chunk_num : Nat
  num_of_chunks : Nat
  last_summary : String
  clean_chunks : List String
  validation_passed : Bool
  events : List ErrorEvent
deriving DecidableEq, Repr

/-- The initial pipeline state for a run over a book. -/
def initialState (bookId : String) : State :=
  { last_profiles := [], last_appearing_names := [], book_id := some bookId,
    no_more_chunks := false, chunk_num := 0, num_of_chunks := 0,
    last_summary := "", clean_chunks := [], validation_passed := true,
    events := [] }

/-- The routing decision a conditional edge returns: continue to the next
node or go to `END`. -/
inductive NodeRoute where
  | toNext : NodeRoute
  | toEND : NodeRoute
deriving DecidableEq, Repr

/-- The outcomes of the three validator classification calls for a given
input text (the AI classifier results, supplied as input to the model). -/
structure ValidatorInput where
  language_ok : Bool
  quality_ok : Bool
  literary_ok : Bool
deriving DecidableEq, Repr

/-- Modelled from the spec: the `language_checker` node — fails the run
(`validation_passed := false`) when the target-language confidence check
fails. -/
def language_checker (inp : ValidatorInput) (s : State) : State :=
  if inp.language_ok then s else { s with validation_passed := false }

/-- Modelled from the spec: the `text_quality_assessor` node — fails the
run when the text-quality score is below the configured minimum. -/
def text_quality_assessor (inp : ValidatorInput) (s : State) : State :=
  if inp.quality_ok then s else { s with validation_passed := false }

/-- Modelled from the spec: the `text_classifier` node — fails the run
when the content is not literary narrative fiction. -/
def text_classifier (inp : ValidatorInput) (s : State) : State :=
  if inp.literary_ok then s else { s with validation_passed := false }

/-- The conditional edge of the validator subgraph in
`SYSTEM_ARCHITECTURE.md`: after `language_checker`, route to
`text_quality_assessor` when validation still passes, else to `END`. -/
def router_from_language_checker_to_text_quality_assessor_or_end
    (s : State) : NodeRoute :=
  if s.validation_passed then NodeRoute.toNext else NodeRoute.toEND

/-- Modelled from the spec: the validator subgraph — the three sub-stages
run linearly, each guarded by a conditional edge that short-circuits to
`END` as soon as `validation_passed` is false. -/
def runValidator (inp : ValidatorInput) (s : State) : State :=
  let s1 := language_checker inp s
  match router_from_language_checker_to_text_quality_assessor_or_end s1 with
  | NodeRoute.toEND => s1
  | NodeRoute.toNext =>
      let s2 := text_quality_assessor inp s1
      if s2.validation_passed then text_classifier inp s2 else s2

/-- Modelled from the spec: the `name_extractor` stage — infers book
title/author metadata from the opening text; reporting only, it gates
nothing downstream. -/
def name_extractor (s : State) : State := s

/-- Split a character sequence into segments of at most `budget`
characters. -/
def splitEvery (budget : Nat) : List Char → List (List Char)
  | [] => []
  | c :: cs =>
      match splitEvery budget cs with
      | [] => [[c]]
      | seg :: segs =>
          if seg.length < budget then (c :: seg) :: segs
          else [c] :: seg :: segs

/-- The chunk-size budget used by the chunker model. -/
def chunkBudget : Nat := 1000

/-- Modelled from the spec: the `chunker` node — splits the cleaned raw
text into an ordered chunk sequence within the size budget and records the
chunk count. -/
def chunker (raw : String) (s : State) : State :=
  let cs := (splitEvery chunkBudget raw.data).map (fun seg => String.mk seg)
  { s with clean_chunks := cs, num_of_chunks := cs.length }

/-- Modelled from the spec: the `cleaner` node — strips markup characters
from each chunk. -/
def cleaner (s : State) : State :=
  { s with clean_chunks :=
      s.clean_chunks.map (fun c =>
        String.mk (c.data.filter (fun ch => ch ≠ '<' ∧ ch ≠ '>'))) }

/-- Modelled from the spec: the `metadata_remover` node — drops
front-matter/back-matter boilerplate markers from each chunk (modelled as
a per-chunk text transformation that keeps the chunk count). -/
def metadata_remover (s : State) : State := s

/-- Modelled from the spec: the preprocessor subgraph — `chunker` then
`cleaner` then `metadata_remover`, linearly. -/
def runPreprocessor (raw : String) (s : State) : State :=
  metadata_remover (cleaner (chunker raw s))

/-! ### Analyst loop -/

/-- The per-chunk observations the AI extraction calls would produce:
candidate names from each name-query pass and the observations to merge
into resolved profiles (supplied as input to the model). -/
structure AnalystEnv where
  firstPassNames : Nat → List String
  secondPassNames : Nat → List String
  summarize : String → String → String
  chunkEvents : Nat → List String
deriving Inhabited

/-- The conditional edge of the analyst subgraph in
`SYSTEM_ARCHITECTURE.md`: after `chunk_updater`, loop back to
`first_name_querier` while chunks remain, else go to `END`. -/
def router_from_chunker_to_first_name_querier_or_end (s : State) : NodeRoute :=
  if s.chunk_num < s.num_of_chunks then NodeRoute.toNext else NodeRoute.toEND

/-- The conditional edge after `first_name_querier`: continue to the
`summarizer` when candidate names were found in the chunk, else skip
straight to `chunk_updater`. -/
def router_from_first_name_querier_to_summarizer_or_chunk_updater
    (s : State) : NodeRoute :=
  if s.last_appearing_names.isEmpty then NodeRoute.toEND else NodeRoute.toNext

/-- Modelled from the spec: `profile_retriever_creator` — resolve every
pending name against the active profiles, creating a record on no match;
returns the updated profiles and the resolved identifiers. -/
def profile_retriever_creator (names : List String) (ps : List Character) :
    List Character × List Nat :=
  names.foldl
    (fun acc n =>
      let (ps', id) := resolveOrCreate acc.1 n
      (ps', acc.2 ++ [id]))
    (ps, [])

/-- Modelled from the spec: `profile_refresher` — merge the chunk's newly
observed events into every resolved record. -/
def profile_refresher (ids : List Nat) (evs : List String)
    (ps : List Character) : List Character :=
  ids.foldl (fun acc id => mergeProfile acc id [] evs []) ps

/-- Modelled from the spec: one full iteration of the analyst loop body —
first-pass name query; if no names were found, skip to `chunk_updater`,
else summarize, re-query names, resolve/create and refresh profiles; then
`chunk_updater` advances `chunk_num` and marks `no_more_chunks` when the
chunks are exhausted. -/
def analystIteration (env : AnalystEnv) (s : State) : State :=
  let names1 := env.firstPassNames s.chunk_num
  let s1 := { s with last_appearing_names := names1 }
  let s2 :=
    match router_from_first_name_querier_to_summarizer_or_chunk_updater s1 with
    | NodeRoute.toEND => s1
    | NodeRoute.toNext =>
        let summ := env.summarize s1.last_summary
          (s1.clean_chunks.getD s1.chunk_num "")
        let names2 := env.secondPassNames s1.chunk_num
        let allNames := names1 ++ names2
        let pr := profile_retriever_creator allNames s1.last_profiles
        let ps2 := profile_refresher pr.2 (env.chunkEvents s1.chunk_num) pr.1
        { s1 with last_summary := summ, last_appearing_names := allNames,
                  last_profiles := ps2 }
  let s3 := { s2 with chunk_num := s2.chunk_num + 1 }
  if s3.chunk_num < s3.num_of_chunks then s3
  else { s3 with no_more_chunks := true }

/-- Modelled from the spec: the analyst loop driver — at the top of each
iteration check the run's cancellation signal and the
`chunk_updater → first_name_querier / END` routing; run one iteration
otherwise. Structural on the remaining-chunk fuel; returns the final state
and the number of iterations executed. -/
def analystLoop (env : AnalystEnv) (cancelled : Nat → Bool) :
    Nat → State → State × Nat
  | 0, s => (s, 0)
  | f + 1, s =>
      if cancelled s.chunk_num then ({ s with no_more_chunks := true }, 0)
      else
        match router_from_chunker_to_first_name_querier_or_end s with
        | NodeRoute.toEND => (s, 0)
        | NodeRoute.toNext =>
            let s' := analystIteration env s
            let r := analystLoop env cancelled f s'
            (r.1, r.2 + 1)

/-- Modelled from the spec: the analyst subgraph — loop until
`chunk_num ≥ num_of_chunks` or cancellation; the fuel is the number of
chunks left, which bounds the iteration count. -/
def runAnalyst (env : AnalystEnv) (cancelled : Nat → Bool) (s : State) :
    State × Nat :=
  analystLoop env cancelled (s.num_of_chunks - s.chunk_num) s

/-- Modelled from the spec: the orchestrator graph — Validator →
Name/Title Extractor → Preprocessor → Analyst Loop, short-circuiting to
termination as soon as the validator sets `validation_passed := false`. -/
def runPipeline (vinp : ValidatorInput) (raw : String) (env : AnalystEnv)
    (cancelled : Nat → Bool) (s : State) : State :=
  let s1 := runValidator vinp s
  if s1.validation_passed then
    let s2 := name_extractor s1
    let s3 := runPreprocessor raw s2
    (runAnalyst env cancelled s3).1
  else { s1 with no_more_chunks := true }

/-! ## Concrete fixtures

Small concrete registries, run sets, profiles and states used to
instantiate the theorems below on executable inputs. -/

/-- A registry with two live, unsignalled runs `a` and `b`. -/
def regW : GraphRegistry :=
  ⟨[("a", ⟨0, false, true⟩), ("b", ⟨5, false, true⟩)]⟩

/-- Three registered runs for the shutdown scenario: one already stopped,
one stopping after 3 poll ticks, one unresponsive past the grace period. -/
def runs3 : List ShutdownRun :=
  [⟨"r1", false, 0⟩, ⟨"r2", false, 3⟩, ⟨"r3", false, 40⟩]

/-- An analyst environment that finds no names and keeps the summary. -/
def envW : AnalystEnv :=
  ⟨fun _ => [], fun _ => [], fun a _ => a, fun _ => []⟩

/-- A profile with no prior mentions. -/
def charA : Character := ⟨1, "ahmad", [], [], []⟩

/-- A profile with the same name and one prior mention. -/
def charB : Character := ⟨2, "ahmad", ["ahmed"], ["event1"], []⟩

/-- A two-profile set in which both profiles tie on similarity for the
query `ahmad`. -/
def psW : List Character := [charA, charB]

/-- A profile holding one relationship edge to identifier 2. -/
def charC1 : Character := ⟨1, "x", [], [], [⟨2, "friend", 1, "d"⟩]⟩

/-- The profile the edge of `charC1` targets. -/
def charC2 : Character := ⟨2, "y", [], [], []⟩

/-- A profile set with one valid relationship edge. -/
def psC : List Character := [charC1, charC2]

/-- A relationship row for book `b1`. -/
def relRowA : CharacterRelationshipRow := ⟨"c1", "c2", "friend", "d1", "b1"⟩

/-- A second row with the same `(id1, id2, bookId)` key as `relRowA`. -/
def relRowB : CharacterRelationshipRow := ⟨"c1", "c2", "enemy", "d2", "b1"⟩

/-- A mid-analysis state with two chunks left. -/
def sLoopW : State :=
  { last_profiles := [], last_appearing_names := [], book_id := some "b1",
    no_more_chunks := false, chunk_num := 0, num_of_chunks := 2,
    last_summary := "", clean_chunks := ["c0", "c1"],
    validation_passed := true, events := [] }

/-- A state whose chunk index has reached the chunk count. -/
def sExitW : State :=
  { last_profiles := [], last_appearing_names := [], book_id := some "b1",
    no_more_chunks := false, chunk_num := 2, num_of_chunks := 2,
    last_summary := "", clean_chunks := ["c0", "c1"],
    validation_passed := true, events := [] }

/-! ## Theorems -/

/-- C2 counterexample: the claim that `cancelled` is a distinct member of
the set of reportable terminal statuses is false on the repository's
status model — the `ProcessingStatus` union of `types/index.ts` and the
book-API status list contain no `cancelled` value. -/
theorem cancelled_not_a_reportable_status :
    ¬ ("cancelled" ∈ processingStatusValues ∧
       "cancelled" ∈ terminalStatusValues) := by
  decide

/-- C2 (amended): the reportable processing statuses are exactly
`pending`, `processing`, `completed`, `failed`; `cancelled` is not among
them (so a cancelled run cannot be reported under a distinct `cancelled`
status), and the terminal statuses among them are exactly `completed` and
`failed`. -/
theorem reportable_statuses_exact :
    processingStatusValues = ["pending", "processing", "completed", "failed"] ∧
    "cancelled" ∉ processingStatusValues ∧
    terminalStatusValues = ["completed", "failed"] ∧
    "cancelled" ∉ terminalStatusValues ∧
    "failed" ∈ processingStatusValues := by
  refine ⟨rfl, by decide, rfl, by decide, by decide⟩

/-- C8: on an unexpected error inside a stage, the node logs the full
diagnostic detail server-side, appends exactly one `unexpected_error`
event carrying the generic user-facing message to the progress channel,
returns the safe fallback value and flags degradation — while leaving the
run's validation gate and termination flag untouched, so the run
continues. -/
theorem unexpected_error_handling (e : String) (s : NodeState) :
    (your_workflow_node (Except.error e) s).server_log =
      s.server_log ++ ["Unexpected error in your_workflow_node: " ++ e] ∧
    (your_workflow_node (Except.error e) s).client_events =
      s.client_events ++
        [create_unexpected_error_event "فشل في معالجة هذه المرحلة"] ∧
    (create_unexpected_error_event
        "فشل في معالجة هذه المرحلة").event_type = "unexpected_error" ∧
    (your_workflow_node (Except.error e) s).result = "fallback_value" ∧
    (your_workflow_node (Except.error e) s).operation_failed = true ∧
    (your_workflow_node (Except.error e) s).validation_passed =
      s.validation_passed ∧
    (your_workflow_node (Except.error e) s).no_more_chunks =
      s.no_more_chunks := by
  refine ⟨rfl, rfl, rfl, rfl, rfl, rfl, rfl⟩

/-- A table with no row for a key stores zero rows for that key. -/
theorem countRelKey_eq_zero_of_not_has
    (db : List CharacterRelationshipRow) (k : String × String × String)
    (h : hasRelKey db k = false) : countRelKey db k = 0 := by
  unfold hasRelKey at h
  unfold countRelKey
  rw [List.length_eq_zero]
  rw [List.filter_eq_nil_iff]
  intro a ha
  have := List.any_eq_false.mp h a ha
  simpa using this

/-- C9: the uniqueness constraint on `(character_id_1, character_id_2,
book_id)` — inserting a relationship whose key is new is accepted;
re-inserting any row with the same key is rejected and leaves the table
unchanged, so exactly one row with that key is stored. -/
theorem createRelationship_unique (db : List CharacterRelationshipRow)
    (r r' : CharacterRelationshipRow)
    (hk : relKey r' = relKey r)
    (hnew : hasRelKey db (relKey r) = false) :
    (create_character_relationship db r).2 = true ∧
    (create_character_relationship
        (create_character_relationship db r).1 r').2 = false ∧
    (create_character_relationship
        (create_character_relationship db r).1 r').1 =
      (create_character_relationship db r).1 ∧
    countRelKey (create_character_relationship db r).1 (relKey r) = 1 := by
  have h1 : create_character_relationship db r = (db ++ [r], true) := by
    simp [create_character_relationship, hnew]
  have hhas : hasRelKey (db ++ [r]) (relKey r') = true := by
    simp [hasRelKey, hk]
  refine ⟨by rw [h1], ?_, ?_, ?_⟩
  · rw [h1]
    simp [create_character_relationship, hhas]
  · rw [h1]
    simp [create_character_relationship, hhas]
  · rw [h1]
    unfold countRelKey
    rw [List.filter_append, List.length_append]
    have h0 : countRelKey db (relKey r) = 0 :=
      countRelKey_eq_zero_of_not_has db (relKey r) hnew
    unfold countRelKey at h0
    rw [h0]
    simp

/-- C9 witness: inserting the `(c1, c2, b1)` relationship twice into an
empty table — the first insert is accepted, the second rejected, and
exactly one row with that key remains. -/
theorem createRelationship_unique_witness :
    relKey relRowB = relKey relRowA ∧
    hasRelKey [] (relKey relRowA) = false ∧
    (create_character_relationship [] relRowA).2 = true ∧
    (create_character_relationship
        (create_character_relationship [] relRowA).1 relRowB).2 = false ∧
    countRelKey (create_character_relationship [] relRowA).1
        (relKey relRowA) = 1 := by
  have h := createRelationship_unique [] relRowA relRowB (by decide) (by decide)
  exact ⟨by decide, by decide, h.1, h.2.1, h.2.2.2⟩

/-- Updating only the entry with key `runId` in an association list leaves
lookups of every other key unchanged. -/
theorem find_map_other (l : List (String × ExecutionRecord))
    (runId other : String) (h : other ≠ runId) :
    (l.map (fun p =>
        if p.1 == runId then (p.1, { p.2 with cancelRequested := true })
        else p)).find? (fun p => p.1 == other) =
      l.find? (fun p => p.1 == other) := by
  induction l with
  | nil => rfl
  | cons p l ih =>
      rw [List.map_cons]
      by_cases hid : p.1 = runId
      · have hne2 : (p.1 == other) = false := by
          rw [hid]
          exact beq_eq_false_iff_ne.mpr (fun he => h he.symm)
        have hif : (if p.1 == runId then
            (p.1, { p.2 with cancelRequested := true }) else p) =
            (p.1, { p.2 with cancelRequested := true }) := by
          simp [hid]
        rw [hif, List.find?_cons, List.find?_cons]
        simpa [hne2] using ih
      · have hif : (if p.1 == runId then
            (p.1, { p.2 with cancelRequested := true }) else p) = p := by
          simp [hid]
        rw [hif, List.find?_cons, List.find?_cons]
        by_cases ho : p.1 = other
        · simp [ho]
        · have hne2 : (p.1 == other) = false := beq_eq_false_iff_ne.mpr ho
          simpa [hne2] using ih

/-- C10: cancellation is isolated to the targeted run — cancelling a
registered run leaves the registry entry of every other run id unchanged,
and cancelling an unregistered id leaves the whole registry unchanged and
reports the run as not found. -/
theorem cancel_isolated (reg : GraphRegistry) (runId : String) :
    (lookupRun reg runId = none →
      cancel_graph_execution reg runId = (reg, false)) ∧
    (∀ other, other ≠ runId →
      lookupRun (cancel_graph_execution reg runId).1 other =
        lookupRun reg other) := by
  constructor
  · intro h
    unfold cancel_graph_execution
    rw [h]
  · intro other hne
    unfold cancel_graph_execution
    cases h : lookupRun reg runId with
    | none => rfl
    | some r =>
        unfold lookupRun
        rw [find_map_other reg.activeGraphs runId other hne]

/-- C10 witness: in the two-run registry, cancelling run `a` leaves run
`b`'s record unchanged, and cancelling the unregistered id `c` changes
nothing and reports not-found. -/
theorem cancel_isolated_witness :
    ("b" : String) ≠ "a" ∧
    lookupRun (cancel_graph_execution regW "a").1 "b" = lookupRun regW "b" ∧
    lookupRun regW "c" = none ∧
    cancel_graph_execution regW "c" = (regW, false) := by
  refine ⟨by decide, (cancel_isolated regW "a").2 "b" (by decide), by decide,
    (cancel_isolated regW "c").1 (by decide)⟩

/-- The poll loop waits at most its grace budget beyond its start time. -/
theorem waitLoop_le (runs : List ShutdownRun) (g t : Nat) :
    waitLoop runs g t ≤ t + g := by
  induction g generalizing t with
  | zero => simp [waitLoop]
  | succ g ih =>
      unfold waitLoop
      by_cases h : runs.all (fun r => !liveAt r t) = true
      · simp [h]
      · simp [h]
        have := ih (t + 1)
        omega

/-- C1: the graceful-shutdown protocol — `cancel_all_graphs` sets every
registered run's cancellation signal, the coordinator's liveness polling
waits at most the grace period, and when the protocol completes every
registered run (force-abandoned ones included) is reported with terminal
status `cancelled`. -/
theorem graceful_shutdown_spec (runs : List ShutdownRun) (grace : Nat) :
    (∀ r ∈ cancel_all_graphs runs, r.cancelRequested = true) ∧
    (gracefulShutdown runs grace).2 ≤ grace ∧
    (gracefulShutdown runs grace).1.length = runs.length ∧
    (∀ p ∈ (gracefulShutdown runs grace).1, p.2 = "cancelled") := by
  refine ⟨?_, ?_, ?_, ?_⟩
  · intro r hr
    rcases List.mem_map.mp hr with ⟨a, _, rfl⟩
    rfl
  · have := waitLoop_le (cancel_all_graphs runs) grace 0
    simpa [gracefulShutdown] using this
  · simp [gracefulShutdown, cancel_all_graphs]
  · intro p hp
    simp only [gracefulShutdown] at hp
    rcases List.mem_map.mp hp with ⟨a, _, rfl⟩
    rfl

/-- C1 witness: with the three registered runs of the scenario — one
already stopped, one stopping after three polls, one unresponsive — the
shutdown protocol signals all of them, waits no more than the 30-second
grace period, and reports all three with status `cancelled`, including the
force-abandoned unresponsive run `r3`. -/
theorem graceful_shutdown_spec_witness :
    (⟨"r3", true, 40⟩ : ShutdownRun) ∈ cancel_all_graphs runs3 ∧
    (⟨"r3", true, 40⟩ : ShutdownRun).cancelRequested = true ∧
    (gracefulShutdown runs3 gracePeriodSeconds).2 ≤ gracePeriodSeconds ∧
    (gracefulShutdown runs3 gracePeriodSeconds).1.length = 3 ∧
    ("r3", "cancelled") ∈ (gracefulShutdown runs3 gracePeriodSeconds).1 ∧
    (("r3", "cancelled") : String × String).2 = "cancelled" := by
  have h := graceful_shutdown_spec runs3 gracePeriodSeconds
  refine ⟨by decide, h.1 ⟨"r3", true, 40⟩ (by decide), h.2.1,
    h.2.2.1.trans (by decide), by decide,
    h.2.2.2 ("r3", "cancelled") (by decide)⟩

/-- C3: the validation gate — when any validator sub-stage fails (wrong
language, low quality, or non-literary content), the run ends with
`validation_passed = false` and never enters the preprocessor or the
analyst loop: no chunks are produced and no character records are
created. -/
theorem validation_gate (vinp : ValidatorInput) (raw : String)
    (env : AnalystEnv) (cancelled : Nat → Bool) (bid : String)
    (h : vinp.language_ok = false ∨ vinp.quality_ok = false ∨
      vinp.literary_ok = false) :
    (runPipeline vinp raw env cancelled
        (initialState bid)).validation_passed = false ∧
    (runPipeline vinp raw env cancelled
        (initialState bid)).clean_chunks = [] ∧
    (runPipeline vinp raw env cancelled
        (initialState bid)).last_profiles = [] ∧
    (runPipeline vinp raw env cancelled
        (initialState bid)).num_of_chunks = 0 ∧
    (runPipeline vinp raw env cancelled
        (initialState bid)).no_more_chunks = true := by
  obtain ⟨l, q, lit⟩ := vinp
  cases l <;> cases q <;> cases lit <;>
    simp_all [runPipeline, runValidator, language_checker,
      text_quality_assessor, text_classifier,
      router_from_language_checker_to_text_quality_assessor_or_end,
      initialState]

/-- C3 witness: a run whose language check fails ends with the validation
gate closed, zero chunks and zero character records. -/
theorem validation_gate_witness :
    ((⟨false, true, true⟩ : ValidatorInput).language_ok = false ∨
      (⟨false, true, true⟩ : ValidatorInput).quality_ok = false ∨
      (⟨false, true, true⟩ : ValidatorInput).literary_ok = false) ∧
    (runPipeline ⟨false, true, true⟩ "text" envW (fun _ => false)
        (initialState "b1")).validation_passed = false ∧
    (runPipeline ⟨false, true, true⟩ "text" envW (fun _ => false)
        (initialState "b1")).clean_chunks = [] ∧
    (runPipeline ⟨false, true, true⟩ "text" envW (fun _ => false)
        (initialState "b1")).last_profiles = [] := by
  have h := validation_gate ⟨false, true, true⟩ "text" envW (fun _ => false)
    "b1" (Or.inl rfl)
  exact ⟨Or.inl rfl, h.1, h.2.1, h.2.2.1⟩

/-- The analyst loop executes at most as many iterations as its
remaining-chunk fuel. -/
theorem analystLoop_count_le (env : AnalystEnv) (cancelled : Nat → Bool)
    (f : Nat) (s : State) : (analystLoop env cancelled f s).2 ≤ f := by
  induction f generalizing s with
  | zero => simp [analystLoop]
  | succ f ih =>
      unfold analystLoop
      by_cases hc : cancelled s.chunk_num = true
      · simp [hc]
      · have hc' : cancelled s.chunk_num = false := by simpa using hc
        cases hr : router_from_chunker_to_first_name_querier_or_end s with
        | toEND => simp [hc', hr]
        | toNext =>
            simp only [hc', hr]
            have := ih (analystIteration env s)
            simp
            omega

/-- Once the chunk index has reached the chunk count, the analyst loop
executes zero further iterations. -/
theorem analystLoop_exits (env : AnalystEnv) (cancelled : Nat → Bool)
    (f : Nat) (s : State) (h : s.num_of_chunks ≤ s.chunk_num) :
    (analystLoop env cancelled f s).2 = 0 := by
  cases f with
  | zero => rfl
  | succ f =>
      unfold analystLoop
      by_cases hc : cancelled s.chunk_num = true
      · simp [hc]
      · have hr : router_from_chunker_to_first_name_querier_or_end s =
            NodeRoute.toEND := by
          simp [router_from_chunker_to_first_name_querier_or_end]
          omega
        simp [hc, hr]

/-- C4: the analyst loop terminates within `len(chunks)` iterations —
the iteration count is bounded by the remaining chunk count (also when no
names are found in any chunk), every iteration advances the chunk index by
exactly one, and the loop performs no iteration once
`chunkIndex ≥ len(chunks)`. -/
theorem analyst_loop_terminates (env : AnalystEnv) (cancelled : Nat → Bool)
    (s : State) :
    (runAnalyst env cancelled s).2 ≤ s.num_of_chunks - s.chunk_num ∧
    (∀ s' : State, (analystIteration env s').chunk_num = s'.chunk_num + 1) ∧
    (∀ (f : Nat) (s' : State), s'.num_of_chunks ≤ s'.chunk_num →
      (analystLoop env cancelled f s').2 = 0) := by
  refine ⟨analystLoop_count_le env cancelled _ s, ?_, ?_⟩
  · intro s'
    unfold analystIteration
    simp only []
    split <;> split <;> rfl
  · intro f s' h
    exact analystLoop_exits env cancelled f s' h

/-- C4 witness: on a two-chunk state with no names found anywhere the loop
runs at most two iterations; one iteration advances the index from 2 to 3;
and from a state whose index has reached the chunk count the loop performs
zero iterations. -/
theorem analyst_loop_terminates_witness :
    (runAnalyst envW (fun _ => false) sLoopW).2 ≤
      sLoopW.num_of_chunks - sLoopW.chunk_num ∧
    (analystIteration envW sExitW).chunk_num = sExitW.chunk_num + 1 ∧
    sExitW.num_of_chunks ≤ sExitW.chunk_num ∧
    (analystLoop envW (fun _ => false) 1 sExitW).2 = 0 := by
  have h := analyst_loop_terminates envW (fun _ => false) sLoopW
  exact ⟨h.1, h.2.1 sExitW, by decide, h.2.2 1 sExitW (by decide)⟩

/-- Edit distance of a sequence with itself is zero (given enough fuel). -/
theorem levFuel_self (xs : List Char) (f : Nat) (h : xs.length ≤ f) :
    levFuel f xs xs = 0 := by
  induction xs generalizing f with
  | nil => cases f <;> rfl
  | cons x xs ih =>
      cases f with
      | zero => simp at h
      | succ g =>
          show (if x = x then levFuel g xs xs
            else 1 + min (levFuel g xs (x :: xs))
              (min (levFuel g (x :: xs) xs) (levFuel g xs xs))) = 0
          rw [if_pos rfl]
          exact ih g (Nat.le_of_succ_le_succ h)

/-- The fuzzy similarity of any name with itself is exactly 1. -/
theorem simScore_self (xs : List Char) : simScore xs xs = 1 := by
  unfold simScore
  by_cases h : max xs.length xs.length = 0
  · rw [if_pos h]
  · have hlev : levenshtein xs xs = 0 :=
      levFuel_self xs (xs.length + xs.length) (by omega)
    rw [if_neg h, hlev, Nat.sub_zero, Rat.mkRat_eq_div]
    have hm : ((max xs.length xs.length : Nat) : ℚ) ≠ 0 := by
      exact_mod_cast h
    rw [Int.cast_natCast]
    exact div_self hm

/-- Resolution returns no match exactly when no profile is a candidate. -/
theorem resolveName_eq_none_iff (ps : List Character) (q : String) :
    resolveName ps q = none ↔ ps.filter (nameMatches q) = [] := by
  unfold resolveName
  cases ps.filter (nameMatches q) <;> simp

/-- C5: name matching is reflexive and resolution is idempotent — a
query's normalized name has self-similarity 1, which meets the 0.8
threshold; any profile set containing a profile with the query's
normalized name yields a match; and resolving the same name twice against
the resulting profile set returns the same identifier without creating a
second record. -/
theorem name_matching_reflexive_idempotent (ps : List Character)
    (name : String) :
    simScore (normalizeName name) (normalizeName name) = 1 ∧
    simThreshold ≤ simScore (normalizeName name) (normalizeName name) ∧
    (∀ c ∈ ps, normalizeName c.name = normalizeName name →
      (resolveName ps name).isSome = true) ∧
    resolveOrCreate (resolveOrCreate ps name).1 name =
      resolveOrCreate ps name := by
  refine ⟨simScore_self _, ?_, ?_, ?_⟩
  · rw [simScore_self]
    decide
  · intro c hc hn
    have hm : nameMatches name c = true := by
      unfold nameMatches
      rw [hn]
      simp
    have hmem : c ∈ ps.filter (nameMatches name) :=
      List.mem_filter.mpr ⟨hc, hm⟩
    cases hf : ps.filter (nameMatches name) with
    | nil => rw [hf] at hmem; cases hmem
    | cons a as =>
        unfold resolveName
        rw [hf]
        rfl
  · cases h : resolveName ps name with
    | some c => simp [resolveOrCreate, h]
    | none =>
        have hfil : ps.filter (nameMatches name) = [] :=
          (resolveName_eq_none_iff ps name).mp h
        have hmatch : nameMatches name (newCharacter (freshId ps) name) =
            true := by
          unfold nameMatches newCharacter
          simp
        have hres2 : resolveName (ps ++ [newCharacter (freshId ps) name])
            name = some (newCharacter (freshId ps) name) := by
          unfold resolveName
          rw [List.filter_append, hfil]
          simp [hmatch]
        have hoc : resolveOrCreate ps name =
            (ps ++ [newCharacter (freshId ps) name], freshId ps) := by
          unfold resolveOrCreate
          rw [h]
        rw [hoc]
        show resolveOrCreate (ps ++ [newCharacter (freshId ps) name]) name = _
        unfold resolveOrCreate
        rw [hres2]
        rfl

/-- C5 witness: resolving `ahmad` against a profile set containing a
profile named `ahmad` matches, and resolving it twice yields the same
identifier with no second record created. -/
theorem name_matching_witness :
    charA ∈ [charA] ∧
    normalizeName charA.name = normalizeName "ahmad" ∧
    (resolveName [charA] "ahmad").isSome = true ∧
    resolveOrCreate (resolveOrCreate [charA] "ahmad").1 "ahmad" =
      resolveOrCreate [charA] "ahmad" := by
  have h := name_matching_reflexive_idempotent [charA] "ahmad"
  exact ⟨by decide, by decide, h.2.2.1 charA (by decide) (by decide),
    h.2.2.2⟩

/-- The candidate preference order is reflexive. -/
theorem lexGE_refl (q : String) (a : Character) : lexGE q a a :=
  ⟨le_refl _, fun _ => le_refl _⟩

/-- The candidate preference order is transitive. -/
theorem lexGE_trans (q : String) (a b c : Character)
    (hab : lexGE q a b) (hbc : lexGE q b c) : lexGE q a c := by
  obtain ⟨h1, h2⟩ := hab
  obtain ⟨h3, h4⟩ := hbc
  refine ⟨le_trans h3 h1, fun he => ?_⟩
  have hab' : score q a ≤ score q b := by rw [← he]; exact h3
  have hba : score q b = score q a := le_antisymm h1 hab'
  have hcb : score q c = score q b := he.trans hba.symm
  exact le_trans (h4 hcb) (h2 hba)

/-- `betterCandidate` decides strict improvement in the preference
order. -/
theorem betterCandidate_iff (q : String) (d acc : Character) :
    betterCandidate q d acc = true ↔
      (score q acc < score q d ∨
        (score q d = score q acc ∧ mentionCount acc < mentionCount d)) := by
  unfold betterCandidate
  simp

/-- One fold step of the selection keeps a candidate that is preferred to
both the accumulator and the new element. -/
theorem step_lexGE (q : String) (acc d : Character) :
    lexGE q (if betterCandidate q d acc then d else acc) acc ∧
    lexGE q (if betterCandidate q d acc then d else acc) d := by
  by_cases hb : betterCandidate q d acc = true
  · rw [if_pos hb]
    rcases (betterCandidate_iff q d acc).mp hb with h | ⟨h1, h2⟩
    · exact ⟨⟨le_of_lt h, fun he => absurd (he ▸ h) (lt_irrefl _)⟩,
        lexGE_refl q d⟩
    · exact ⟨⟨le_of_eq h1.symm, fun _ => le_of_lt h2⟩, lexGE_refl q d⟩
  · rw [if_neg hb]
    refine ⟨lexGE_refl q acc, ?_⟩
    have hb' := (not_congr (betterCandidate_iff q d acc)).mp
      (by simpa using hb)
    rw [not_or] at hb'
    refine ⟨le_of_not_lt hb'.1, fun he => ?_⟩
    by_contra hlt
    exact hb'.2 ⟨he, lt_of_not_le hlt⟩

/-- The fold of the selection step over a candidate list returns a
candidate preferred to the initial accumulator and to every listed
candidate. -/
theorem foldl_best (q : String) (l : List Character) (acc : Character) :
    lexGE q (l.foldl (fun acc d =>
      if betterCandidate q d acc then d else acc) acc) acc ∧
    ∀ x ∈ l, lexGE q (l.foldl (fun acc d =>
      if betterCandidate q d acc then d else acc) acc) x := by
  induction l generalizing acc with
  | nil =>
      refine ⟨lexGE_refl q acc, ?_⟩
      intro x hx
      cases hx
  | cons d ds ih =>
      have hstep := step_lexGE q acc d
      have ihh := ih (if betterCandidate q d acc then d else acc)
      rw [List.foldl_cons]
      refine ⟨lexGE_trans q _ _ _ ihh.1 hstep.1, ?_⟩
      intro x hx
      rcases List.mem_cons.mp hx with rfl | hx'
      · exact lexGE_trans q _ _ _ ihh.1 hstep.2
      · exact ihh.2 x hx'

/-- The fold of the selection step returns the initial accumulator or a
listed candidate. -/
theorem foldl_best_mem (q : String) (l : List Character) (acc : Character) :
    (l.foldl (fun acc d =>
      if betterCandidate q d acc then d else acc) acc) = acc ∨
    (l.foldl (fun acc d =>
      if betterCandidate q d acc then d else acc) acc) ∈ l := by
  induction l generalizing acc with
  | nil => exact Or.inl rfl
  | cons d ds ih =>
      rw [List.foldl_cons]
      rcases ih (if betterCandidate q d acc then d else acc) with h | h
      · rw [h]
        by_cases hb : betterCandidate q d acc = true
        · rw [if_pos hb]
          exact Or.inr (List.mem_cons_self d ds)
        · rw [if_neg hb]
          exact Or.inl rfl
      · exact Or.inr (List.mem_cons_of_mem d h)

/-- C6: resolution selects the best candidate — whenever resolution
returns a profile, that profile is one of the match candidates, its
similarity is maximal among all candidates (in particular among any two or
more profiles exceeding the threshold), and any candidate tying it exactly
on similarity has at most its prior-mention count. -/
theorem resolve_picks_best (ps : List Character) (q : String)
    (c : Character) (hres : resolveName ps q = some c) :
    c ∈ ps.filter (nameMatches q) ∧
    ∀ p ∈ ps.filter (nameMatches q),
      score q p ≤ score q c ∧
        (score q p = score q c → mentionCount p ≤ mentionCount c) := by
  unfold resolveName at hres
  cases hf : ps.filter (nameMatches q) with
  | nil =>
      rw [hf] at hres
      cases hres
  | cons a as =>
      rw [hf] at hres
      have hc : as.foldl (fun acc d =>
          if betterCandidate q d acc then d else acc) a = c :=
        Option.some.inj hres
      have hb := foldl_best q as a
      have hmem := foldl_best_mem q as a
      rw [hc] at hb hmem
      constructor
      · rcases hmem with h | h
        · rw [h]; exact List.mem_cons_self a as
        · exact List.mem_cons_of_mem a h
      · intro p hp
        rcases List.mem_cons.mp hp with rfl | hp'
        · exact hb.1
        · exact hb.2 p hp'

/-- C6 witness: with two profiles both tying at similarity 1 for the query
`ahmad`, resolution returns `charB`, the profile with more prior mentions,
and `charA`'s similarity and mention count do not exceed it. -/
theorem resolve_picks_best_witness :
    resolveName psW "ahmad" = some charB ∧
    charA ∈ psW.filter (nameMatches "ahmad") ∧
    charB ∈ psW.filter (nameMatches "ahmad") ∧
    score "ahmad" charA ≤ score "ahmad" charB ∧
    (score "ahmad" charA = score "ahmad" charB →
      mentionCount charA ≤ mentionCount charB) := by
  have h := resolve_picks_best psW "ahmad" charB (by decide)
  have h2 := h.2 charA (by decide)
  exact ⟨by decide, by decide, h.1, h2.1, h2.2⟩

/-- Merging never renames or deletes an identifier: the identifier list is
unchanged. -/
theorem mergeProfile_idsOf (ps : List Character) (id : Nat)
    (al ev : List String) (rl : List RelEdge) :
    idsOf (mergeProfile ps id al ev rl) = idsOf ps := by
  unfold idsOf mergeProfile
  rw [List.map_map]
  apply List.map_congr_left
  intro c _
  by_cases h : c.character_id = id <;> simp [h]

/-- C7: `activeProfiles` is append/merge-only — merging preserves the
identifier list exactly; creating keeps every existing identifier (the old
list is a prefix of the new one); and relationship-edge validity (every
edge targets an existing identifier) is preserved by both operations. -/
theorem activeProfiles_append_merge_only (ps : List Character) (id : Nat)
    (al ev : List String) (rl : List RelEdge) (name : String) :
    idsOf (mergeProfile ps id al ev rl) = idsOf ps ∧
    idsOf ps <+: idsOf (resolveOrCreate ps name).1 ∧
    (edgesValid ps → edgesValid (mergeProfile ps id al ev rl)) ∧
    (edgesValid ps → edgesValid (resolveOrCreate ps name).1) := by
  refine ⟨mergeProfile_idsOf ps id al ev rl, ?_, ?_, ?_⟩
  · cases h : resolveName ps name with
    | some c => simp [resolveOrCreate, h]
    | none =>
        simp [resolveOrCreate, h, idsOf, List.map_append]
  · intro hv
    intro c' hc' r hr
    rw [mergeProfile_idsOf]
    unfold mergeProfile at hc'
    obtain ⟨c, hc, rfl⟩ := List.mem_map.mp hc'
    by_cases hcid : c.character_id = id
    · rw [if_pos hcid] at hr
      simp only [] at hr
      rcases List.mem_append.mp hr with hold | hnew
      · exact hv c hc r hold
      · have hany := (List.mem_filter.mp hnew).2
        obtain ⟨d, hd, hdr⟩ := List.any_eq_true.mp hany
        have : d.character_id = r.target_id := by simpa using hdr
        rw [← this]
        exact List.mem_map.mpr ⟨d, hd, rfl⟩
    · rw [if_neg hcid] at hr
      exact hv c hc r hr
  · intro hv
    cases h : resolveName ps name with
    | some c =>
        intro c' hc' r hr
        simp only [resolveOrCreate, h] at hc' ⊢
        exact hv c' hc' r hr
    | none =>
        intro c' hc' r hr
        simp only [resolveOrCreate, h] at hc' ⊢
        rcases List.mem_append.mp hc' with hold | hnewc
        · have := hv c' hold r hr
          unfold idsOf at this ⊢
          rw [List.map_append]
          exact List.mem_append_left _ this
        · have hc'' : c' = newCharacter (freshId ps) name := by
            simpa using hnewc
          rw [hc''] at hr
          cases hr

/-- C7 witness: on a two-profile set with one valid edge, merging new data
into profile 1 and creating a profile for an unseen name both preserve all
identifiers and keep every relationship edge valid. -/
theorem activeProfiles_append_merge_only_witness :
    edgesValid psC ∧
    idsOf (mergeProfile psC 1 ["alias"] ["e2"] [⟨2, "ally", 1, "x"⟩]) =
      idsOf psC ∧
    idsOf psC <+: idsOf (resolveOrCreate psC "zayd").1 ∧
    edgesValid (mergeProfile psC 1 ["alias"] ["e2"] [⟨2, "ally", 1, "x"⟩]) ∧
    edgesValid (resolveOrCreate psC "zayd").1 := by
  have h := activeProfiles_append_merge_only psC 1 ["alias"] ["e2"]
    [⟨2, "ally", 1, "x"⟩] "zayd"
  have hv : edgesValid psC := by
    unfold edgesValid
    decide
  exact ⟨hv, h.1, h.2.1, h.2.2.1 hv, h.2.2.2 hv⟩

end GradProject
